import Mathlib

/-!
Verification of the paginated filtered query engine and the normalization
layer of a language-learning content API (Russian nouns and verbs with
JSON-embedded translations).

The embedding models Python values that flow through the JSON columns as an
inductive type `PyVal`, the record store as a Lean list in insertion order,
and the query functions `get_nouns` / `get_verbs` (from `app/crud/noun.py`
and `app/crud/verb.py`, which are line-for-line identical up to field names)
as pure functions over that list.  Python dicts become association lists
with unique keys (uniqueness is a Python-dict invariant and appears as an
explicit hypothesis where a proof needs it); Python string lowering is
modelled on the ASCII range, which is all the proofs below depend on.
-/

/-- A Python value as stored in the JSON columns: strings, integers,
lists, dicts with string keys (association list, insertion order), and
`None`. -/
inductive PyVal where
  | str : String → PyVal
  | int : Int → PyVal
  | list : List PyVal → PyVal
  | dict : List (String × PyVal) → PyVal
  | none : PyVal
deriving Repr


/-- Python truthiness of a value (`if not x:` tests): empty strings, zero,
empty containers and `None` are falsy. -/
def isTruthy : PyVal → Bool
  | .str s => !s.isEmpty
  | .int n => n != 0
  | .list l => !l.isEmpty
  | .dict d => !d.isEmpty
  | .none => false

/-- Python `str.lower()`, modelled on the ASCII range: each character is
lowercased with `Char.toLower` (a structural map over the character list,
extensionally `String.toLower`).  Every concrete string in this
development is outside the range where Python and ASCII lowering differ. -/
def pyLower (s : String) : String := ⟨s.data.map Char.toLower⟩

/-- The Python substring test `needle in hay`: some suffix of `hay`
starts with `needle`. -/
def strContains (hay needle : String) : Bool :=
  (List.range (hay.length + 1)).any (fun i => needle.data.isPrefixOf (hay.data.drop i))

/-- `_normalize_translations` from `app/crud/noun.py` (the copy in
`app/crud/verb.py` is identical): falsy input gives `[]`, a dict is
wrapped into a one-element list, a list passes through unchanged, and
anything else gives `[]`.  No element is rewritten. -/
def normalizeTranslations (t : PyVal) : List PyVal :=
  if !isTruthy t then []
  else
    match t with
    | .dict d => [.dict d]
    | .list l => l
    | _ => []

/-- `_matches_translation_filter` from `app/crud/noun.py` (identical copy
in `app/crud/verb.py`): after `_normalize_translations`, some element must
be a dict whose value at the requested language key is a list containing a
string with the requested text as a case-insensitive substring.  A word
list holding a non-string would raise in Python; the model returns
`false` there, and the theorems about this predicate carry a
well-formedness hypothesis excluding that case. -/
def matchesTranslationFilter (translations : PyVal) (lang text : String) : Bool :=
  let normalized := normalizeTranslations translations
  if normalized.isEmpty then false
  else
    normalized.any fun trans =>
      match trans with
      | .dict d =>
          match (List.lookup lang d).getD (.list []) with
          | .list ws =>
              ws.any fun w =>
                match w with
                | .str s => strContains (pyLower s) (pyLower text)
                | _ => false
          | _ => false
      | _ => false

/-- Well-formed translations value: in its normalized form, every dict
value that is a list holds only strings (the only inputs on which the
Python predicate runs without raising). -/
def wfTranslations (t : PyVal) : Bool :=
  (normalizeTranslations t).all fun trans =>
    match trans with
    | .dict d =>
        d.all fun p =>
          match p.2 with
          | .list ws =>
              ws.all fun w =>
                match w with
                | .str _ => true
                | _ => false
          | _ => true
    | _ => true

/-- `Translation.parse_dict_format` from `app/schemas/traslation.py`: a
dict with exactly one key that is neither `language` nor `translation` is
rewritten from the short shape to the pair shape
`{"language": key, "translation": value}`; everything else passes through
unchanged. -/
def parse_dict_format : PyVal → PyVal
  | .dict [(k, v)] =>
      if k != "language" && k != "translation" then
        .dict [("language", .str k), ("translation", v)]
      else .dict [(k, v)]
  | v => v

/-- `_normalize_word_form` from `app/schemas/noun.py` (identical copy in
`app/schemas/verb.py`): a bare string becomes a full word form with the
accent defaulting to the word and empty phonetics; a dict is returned
unchanged; anything else becomes the empty word form. -/
def normalizeWordForm : PyVal → PyVal
  | .str s => .dict [("word", .str s), ("accent", .str s), ("phonetics", .str "")]
  | .dict d => .dict d
  | _ => .dict [("word", .str ""), ("accent", .str ""), ("phonetics", .str "")]

/-- A row of the `nouns` table, restricted to the fields the query engine
reads (`app/models/noun.py`): the name, the gender and the JSON
translations column. -/
structure Noun where
  noun : String
  gender : String
  translations : PyVal
deriving Repr

/-- A row of the `verbs` table, restricted to the fields `get_verbs`
reads (`app/crud/verb.py`): the pair identifier, the conjugation type and
the JSON translations column. -/
structure Verb where
  verb_pair_id : String
  conjugation_type : Int
  translations : PyVal
deriving Repr

/-- The SQL-pushable predicates of `get_nouns`: substring containment on
the name when the `noun` filter is truthy, equality with the lowercased
input on `gender` when that filter is truthy.  The store is a list in
insertion order, so a `where` clause is a `filter`. -/
def applyNounFilters (nounF genderF : Option String) (db : List Noun) : List Noun :=
  let db1 :=
    match nounF with
    | some f => if !f.isEmpty then db.filter (fun r => strContains r.noun f) else db
    | Option.none => db
  match genderF with
  | some g => if !g.isEmpty then db1.filter (fun r => r.gender == pyLower g) else db1
  | Option.none => db1

/-- The SQL-pushable predicates of `get_verbs`: substring containment on
`verb_pair_id` when that filter is truthy, equality on `conjugation_type`
when the given integer is truthy (nonzero). -/
def applyVerbFilters (pairF : Option String) (ctF : Option Int) (db : List Verb) : List Verb :=
  let db1 :=
    match pairF with
    | some f => if !f.isEmpty then db.filter (fun r => strContains r.verb_pair_id f) else db
    | Option.none => db
  match ctF with
  | some c => if c != 0 then db1.filter (fun r => r.conjugation_type == c) else db1
  | Option.none => db1

/-- `get_nouns` from `app/crud/noun.py`: count rows under the pushable
predicates, fetch the `offset`/`limit` window, and when both halves of the
translation filter are truthy apply the in-memory predicate to the window;
a non-empty result triggers the unbounded re-fetch whose filtered length
becomes the corrected total and whose original window becomes the page,
while an empty result returns no rows and a total of zero. -/
def get_nouns (db : List Noun) (page per_page : Nat)
    (nounF genderF translation_lang translation_text : Option String) :
    List Noun × Nat :=
  let base := applyNounFilters nounF genderF db
  let total := base.length
  let offset := (page - 1) * per_page
  let nouns := (base.drop offset).take per_page
  match translation_lang, translation_text with
  | some lang, some text =>
      if !lang.isEmpty && !text.isEmpty then
        let filtered_nouns :=
          nouns.filter (fun r => matchesTranslationFilter r.translations lang text)
        if !filtered_nouns.isEmpty then
          let all_nouns := applyNounFilters nounF genderF db
          let filtered_all :=
            all_nouns.filter (fun r => matchesTranslationFilter r.translations lang text)
          ((filtered_all.drop offset).take per_page, filtered_all.length)
        else ([], 0)
      else (nouns, total)
  | _, _ => (nouns, total)

/-- `get_verbs` from `app/crud/verb.py`, identical to `get_nouns` up to
the record type and the pushable predicates. -/
def get_verbs (db : List Verb) (page per_page : Nat)
    (pairF : Option String) (ctF : Option Int)
    (translation_lang translation_text : Option String) :
    List Verb × Nat :=
  let base := applyVerbFilters pairF ctF db
  let total := base.length
  let offset := (page - 1) * per_page
  let verbs := (base.drop offset).take per_page
  match translation_lang, translation_text with
  | some lang, some text =>
      if !lang.isEmpty && !text.isEmpty then
        let filtered_verbs :=
          verbs.filter (fun r => matchesTranslationFilter r.translations lang text)
        if !filtered_verbs.isEmpty then
          let all_verbs := applyVerbFilters pairF ctF db
          let filtered_all :=
            all_verbs.filter (fun r => matchesTranslationFilter r.translations lang text)
          ((filtered_all.drop offset).take per_page, filtered_all.length)
        else ([], 0)
      else (verbs, total)
  | _, _ => (verbs, total)

/-- The `total_pages` computation of `list_nouns` in
`app/api/routes/nouns.py`: the ceiling of `total / per_page` when the
total is positive, and zero otherwise. -/
def total_pages (total per_page : Nat) : Nat :=
  if 0 < total then (total + per_page - 1) / per_page else 0

/-- Keys of a dict entry list are pairwise distinct (the invariant every
Python dict satisfies). -/
def keysNodup : List (String × PyVal) → Bool
  | [] => true
  | p :: tl => !(tl.any fun q => q.1 == p.1) && keysNodup tl

/-- Python dict assignment `d[k] = v` on the association-list model:
replace the value at an existing key in place, otherwise append. -/
def dictSet (d : List (String × PyVal)) (k : String) (v : PyVal) :
    List (String × PyVal) :=
  if d.any (fun p => p.1 == k) then
    d.map fun p => if p.1 == k then (k, v) else p
  else d ++ [(k, v)]

/-- The six grammatical cases walked by `_normalize_noun_structure`. -/
def cases6 : List String :=
  ["nominative", "genitive", "dative", "accusative", "instrumental", "prepositional"]

/-- The per-number loop of `_normalize_noun_structure`
(`app/schemas/noun.py`): each present case key has its value replaced by
its normalized word form. -/
def normalizeCaseForms (cf : List (String × PyVal)) : List (String × PyVal) :=
  cases6.foldl
    (fun acc c =>
      match List.lookup c acc with
      | some v => dictSet acc c (normalizeWordForm v)
      | Option.none => acc)
    cf

/-- `_normalize_noun_structure` from `app/schemas/noun.py`: when the
record has a dict under `declension`, normalize the word forms under its
`singular` and `plural` dicts; everything else passes through. -/
def normalizeNounStructure (data : PyVal) : PyVal :=
  match data with
  | .dict d =>
      match List.lookup "declension" d with
      | some (.dict dec) =>
          let dec1 :=
            match List.lookup "singular" dec with
            | some (.dict s) => dictSet dec "singular" (.dict (normalizeCaseForms s))
            | _ => dec
          let dec2 :=
            match List.lookup "plural" dec1 with
            | some (.dict p) => dictSet dec1 "plural" (.dict (normalizeCaseForms p))
            | _ => dec1
          .dict (dictSet d "declension" (.dict dec2))
      | _ => .dict d
  | v => v

/-- `normalize_noun_for_response` from `app/schemas/noun.py`, on the dict
branch (a model object is first turned into a dict by `model_dump`, so
every record reaches this branch as a dict): wrap a dict-valued
`translations` into a one-element list, coerce a non-list non-dict value
to the empty list, then normalize the declension structure. -/
def normalize_noun_for_response (data : PyVal) : PyVal :=
  match data with
  | .dict d =>
      let d1 :=
        match List.lookup "translations" d with
        | some (.dict t) => dictSet d "translations" (.list [.dict t])
        | some (.list _) => d
        | some _ => dictSet d "translations" (.list [])
        | Option.none => d
      normalizeNounStructure (.dict d1)
  | v => v

/-- A full word-form mapping in the sense of the spec: a dict carrying
the `word`, `accent` and `phonetics` keys. -/
def isWordFormMapping : PyVal → Bool
  | .dict d =>
      (List.lookup "word" d).isSome && (List.lookup "accent" d).isSome &&
        (List.lookup "phonetics" d).isSome
  | _ => false

/-- A case-forms dict is canonical when its keys are distinct and every
value stored under one of the six case keys is a full word-form mapping. -/
def canonicalCaseForms (cf : List (String × PyVal)) : Bool :=
  keysNodup cf &&
    cf.all fun p => !(cases6.contains p.1) || isWordFormMapping p.2

/-- A record dict is canonical in the sense of the spec: distinct keys, a
list-valued `translations` field (when present), and every case leaf under
`declension.singular` / `declension.plural` already a full word-form
mapping. -/
def canonicalNoun (data : PyVal) : Bool :=
  match data with
  | .dict d =>
      keysNodup d &&
      (match List.lookup "translations" d with
       | some (.list _) => true
       | some _ => false
       | Option.none => true) &&
      (match List.lookup "declension" d with
       | some (.dict dec) =>
           keysNodup dec &&
           (match List.lookup "singular" dec with
            | some (.dict s) => canonicalCaseForms s
            | some _ => true
            | Option.none => true) &&
           (match List.lookup "plural" dec with
            | some (.dict p) => canonicalCaseForms p
            | some _ => true
            | Option.none => true)
       | some _ => true
       | Option.none => true)
  | _ => false

/-- The persistent state the group-link endpoints act on: noun groups as
an association of group id to owner id, the set of existing noun ids, and
the link rows as (group id, noun id) pairs in insertion order. -/
structure LinkState where
  groups : List (Nat × Nat)
  nouns : List Nat
  links : List (Nat × Nat)
deriving Repr, DecidableEq

/-- The error outcomes an endpoint can raise. -/
inductive ApiError where
  | notFound
  | forbidden
deriving Repr, DecidableEq

/-- Delete the first link row equal to the given pair, as
`remove_noun_from_group` does via `first()` followed by `delete`. -/
def removeFirstLink : List (Nat × Nat) → Nat × Nat → List (Nat × Nat)
  | [], _ => []
  | l :: ls, p => if l = p then ls else l :: removeFirstLink ls p

/-- `add_noun_to_group_endpoint` from `app/api/routes/noun_groups.py`:
look up the group (404 when absent), check ownership (403), look up the
noun (404 when absent), then insert the link row. -/
def add_noun_to_group_endpoint (st : LinkState) (userId groupId nounId : Nat) :
    Except ApiError LinkState :=
  match List.lookup groupId st.groups with
  | Option.none => .error .notFound
  | some owner =>
      if owner ≠ userId then .error .forbidden
      else if nounId ∈ st.nouns then
        .ok { st with links := st.links ++ [(groupId, nounId)] }
      else .error .notFound

/-- `remove_noun_from_group_endpoint` from
`app/api/routes/noun_groups.py`: look up the group (404 when absent),
check ownership (403), then call `remove_noun_from_group`, which deletes
the first matching link row when one exists and otherwise does nothing —
the noun id itself is never looked up. -/
def remove_noun_from_group_endpoint (st : LinkState) (userId groupId nounId : Nat) :
    Except ApiError LinkState :=
  match List.lookup groupId st.groups with
  | Option.none => .error .notFound
  | some owner =>
      if owner ≠ userId then .error .forbidden
      else .ok { st with links := removeFirstLink st.links (groupId, nounId) }

/-- Claim C3 counterexample: a record whose translations are stored in the
legacy shape `{"language": "es", "translation": "amar"}` does not match
the filter (lang = "es", text = "am"), although the claim says it does. -/
theorem legacy_translation_record_does_not_match :
    matchesTranslationFilter
      (.list [.dict [("language", .str "es"), ("translation", .str "amar")]])
      "es" "am" = false := by decide

/-- Claim C3 (amended): on well-formed translations the match predicate
returns true exactly when some element of the normalized list is a dict
mapping the requested language to a word list containing the requested
text as a case-insensitive substring; and a record stored in the legacy
pair shape never matches, for any language and text, because
normalization leaves that shape unchanged and the predicate finds no
list under the language key. -/
theorem matchesTranslationFilter_spec :
    (∀ (t : PyVal) (lang text : String), wfTranslations t = true →
      (matchesTranslationFilter t lang text = true ↔
        ∃ d, PyVal.dict d ∈ normalizeTranslations t ∧
          ∃ ws, List.lookup lang d = some (PyVal.list ws) ∧
            ∃ s, PyVal.str s ∈ ws ∧ strContains (pyLower s) (pyLower text) = true))
    ∧ (∀ L T lang text : String,
        matchesTranslationFilter
          (.list [.dict [("language", .str L), ("translation", .str T)]])
          lang text = false) := by
  constructor
  · intro t lang text _
    simp only [matchesTranslationFilter]
    by_cases hN : (normalizeTranslations t).isEmpty = true
    · rw [if_pos hN]
      rw [List.isEmpty_iff] at hN
      simp [hN]
    · rw [if_neg hN]
      simp only [List.any_eq_true]
      constructor
      · rintro ⟨x, hxmem, hfx⟩
        cases x with
        | dict d =>
            cases hlk : List.lookup lang d with
            | none => simp [hlk] at hfx
            | some v =>
                cases v with
                | list ws =>
                    simp only [hlk, Option.getD_some, List.any_eq_true] at hfx
                    obtain ⟨w, hwmem, hgw⟩ := hfx
                    cases w with
                    | str s => exact ⟨d, hxmem, ws, hlk, s, hwmem, hgw⟩
                    | int n => simp at hgw
                    | list l => simp at hgw
                    | dict d2 => simp at hgw
                    | none => simp at hgw
                | str s => simp [hlk] at hfx
                | int n => simp [hlk] at hfx
                | dict d2 => simp [hlk] at hfx
                | none => simp [hlk] at hfx
        | str s => simp at hfx
        | int n => simp at hfx
        | list l => simp at hfx
        | none => simp at hfx
      · rintro ⟨d, hdmem, ws, hlk, s, hsmem, hc⟩
        refine ⟨PyVal.dict d, hdmem, ?_⟩
        simp only [hlk, Option.getD_some, List.any_eq_true]
        exact ⟨PyVal.str s, hsmem, hc⟩
  · intro L T lang text
    by_cases h1 : lang = "language"
    · simp [matchesTranslationFilter, normalizeTranslations, isTruthy, List.lookup, h1]
    · by_cases h2 : lang = "translation"
      · simp [matchesTranslationFilter, normalizeTranslations, isTruthy, List.lookup, h1, h2]
      · have e1 : (lang == "language") = false := by
          simp [h1]
        have e2 : (lang == "translation") = false := by
          simp [h2]
        simp [matchesTranslationFilter, normalizeTranslations, isTruthy, List.lookup, e1, e2]

/-- Claim C3 amended, witness: the iff instantiated at a concrete
well-formed canonical-block record. -/
theorem matchesTranslationFilter_spec_witness :
    matchesTranslationFilter (.list [.dict [("es", .list [.str "amar"])]]) "es" "am" = true ↔
      ∃ d, PyVal.dict d ∈ normalizeTranslations (.list [.dict [("es", .list [.str "amar"])]]) ∧
        ∃ ws, List.lookup "es" d = some (PyVal.list ws) ∧
          ∃ s, PyVal.str s ∈ ws ∧ strContains (pyLower s) (pyLower "am") = true :=
  matchesTranslationFilter_spec.1
    (.list [.dict [("es", .list [.str "amar"])]]) "es" "am" (by decide)

/-- Claim C4 counterexample: `_normalize_translations` sends the legacy
pair shape and the canonical block shape to different results, so the
claimed equivalence fails on the spec's own example. -/
theorem normalizeTranslations_legacy_ne_block :
    normalizeTranslations (.dict [("language", .str "es"), ("translation", .str "amar")])
      ≠ normalizeTranslations (.dict [("es", .list [.str "amar"])]) := by
  intro h
  simp [normalizeTranslations, isTruthy] at h

/-- Claim C4 (amended): `_normalize_translations` rewrites neither shape —
it only wraps a lone dict into a one-element list, leaving the legacy pair
dict and the canonical block dict unchanged (hence unequal).  The
rewriting that does exist lives in `Translation.parse_dict_format` and
runs the other way: the short shape `{"es": "amar"}` is rewritten to the
pair shape `{"language": "es", "translation": "amar"}`, which is also the
fixed point of that validator. -/
theorem translation_shape_normalization :
    (∀ L T : String,
      normalizeTranslations (.dict [("language", .str L), ("translation", .str T)])
        = [.dict [("language", .str L), ("translation", .str T)]])
    ∧ (∀ (L : String) (ws : List PyVal),
      normalizeTranslations (.dict [(L, .list ws)]) = [.dict [(L, .list ws)]])
    ∧ parse_dict_format (.dict [("es", .str "amar")])
        = .dict [("language", .str "es"), ("translation", .str "amar")]
    ∧ parse_dict_format (.dict [("language", .str "es"), ("translation", .str "amar")])
        = .dict [("language", .str "es"), ("translation", .str "amar")] :=
  ⟨fun _ _ => rfl, fun _ _ => rfl, rfl, rfl⟩

/-- Claim C6 counterexample: a mapping missing the `accent` key is
returned unchanged by `_normalize_word_form` — the accent is not
defaulted to the word as the claim states. -/
theorem normalizeWordForm_no_mapping_defaults :
    normalizeWordForm (.dict [("word", .str "dom")]) = .dict [("word", .str "dom")]
    ∧ normalizeWordForm (.dict [("word", .str "dom")])
        ≠ .dict [("word", .str "dom"), ("accent", .str "dom"), ("phonetics", .str "")] := by
  refine ⟨rfl, ?_⟩
  intro h
  simp [normalizeWordForm] at h

/-- Claim C6 (amended): `_normalize_word_form` expands a bare string
(such as "говорить") into the full word form with the accent defaulting
to the word and empty phonetics, but returns every mapping unchanged —
missing `accent` or `phonetics` keys are not filled in. -/
theorem normalizeWordForm_spec :
    normalizeWordForm (.str "говорить")
        = .dict [("word", .str "говорить"), ("accent", .str "говорить"),
                 ("phonetics", .str "")]
    ∧ (∀ s : String, normalizeWordForm (.str s)
        = .dict [("word", .str s), ("accent", .str s), ("phonetics", .str "")])
    ∧ (∀ d : List (String × PyVal), normalizeWordForm (.dict d) = .dict d) :=
  ⟨rfl, fun _ => rfl, fun _ => rfl⟩

theorem truthy_pair_of_ne {lang text : String} (hl : lang ≠ "") (ht : text ≠ "") :
    (!lang.isEmpty && !text.isEmpty) = true := by
  have h1 : (!lang.isEmpty) = true := by
    rw [Bool.not_eq_true', Bool.eq_false_iff, ne_eq, String.isEmpty_iff]
    exact hl
  have h2 : (!text.isEmpty) = true := by
    rw [Bool.not_eq_true', Bool.eq_false_iff, ne_eq, String.isEmpty_iff]
    exact ht
  rw [h1, h2]
  rfl

/-- Claim C5: without a translation filter, `get_nouns` and `get_verbs`
return as total exactly the count of rows matching the pushable
predicates alone — independent of `page` and `per_page` — and as page the
offset/limit window of the pushable-predicate query. -/
theorem get_nouns_verbs_no_translation_filter :
    (∀ (db : List Noun) (page per_page : Nat) (nounF genderF : Option String),
      get_nouns db page per_page nounF genderF Option.none Option.none
        = (((applyNounFilters nounF genderF db).drop ((page - 1) * per_page)).take per_page,
           (applyNounFilters nounF genderF db).length))
    ∧ (∀ (db : List Verb) (page per_page : Nat) (pairF : Option String) (ctF : Option Int),
      get_verbs db page per_page pairF ctF Option.none Option.none
        = (((applyVerbFilters pairF ctF db).drop ((page - 1) * per_page)).take per_page,
           (applyVerbFilters pairF ctF db).length)) :=
  ⟨fun _ _ _ _ _ => rfl, fun _ _ _ _ _ => rfl⟩

/-- Claim C10: the translation filter takes effect only when both halves
are provided and non-empty; with exactly one half given, or an empty
string in either, the result is identical to the call with no translation
filter at all. -/
theorem translation_filter_requires_both :
    (∀ (db : List Noun) (page per_page : Nat) (nounF genderF tl tt : Option String),
      (¬ ∃ l t, tl = some l ∧ tt = some t ∧ l ≠ "" ∧ t ≠ "") →
      get_nouns db page per_page nounF genderF tl tt
        = get_nouns db page per_page nounF genderF Option.none Option.none)
    ∧ (∀ (db : List Verb) (page per_page : Nat) (pairF : Option String)
        (ctF : Option Int) (tl tt : Option String),
      (¬ ∃ l t, tl = some l ∧ tt = some t ∧ l ≠ "" ∧ t ≠ "") →
      get_verbs db page per_page pairF ctF tl tt
        = get_verbs db page per_page pairF ctF Option.none Option.none) := by
  constructor
  · intro db page pp nf gf tl tt h
    cases tl with
    | none => cases tt <;> rfl
    | some l =>
        cases tt with
        | none => rfl
        | some t =>
            have hlt : l = "" ∨ t = "" := by
              by_contra hc
              push_neg at hc
              exact h ⟨l, t, rfl, rfl, hc.1, hc.2⟩
            have hcond : (!l.isEmpty && !t.isEmpty) = false := by
              rcases hlt with h0 | h0 <;> subst h0 <;>
                simp [show String.isEmpty "" = true from rfl]
            simp only [get_nouns, hcond]
            rfl
  · intro db page pp pf cf tl tt h
    cases tl with
    | none => cases tt <;> rfl
    | some l =>
        cases tt with
        | none => rfl
        | some t =>
            have hlt : l = "" ∨ t = "" := by
              by_contra hc
              push_neg at hc
              exact h ⟨l, t, rfl, rfl, hc.1, hc.2⟩
            have hcond : (!l.isEmpty && !t.isEmpty) = false := by
              rcases hlt with h0 | h0 <;> subst h0 <;>
                simp [show String.isEmpty "" = true from rfl]
            simp only [get_verbs, hcond]
            rfl

/-- Claim C10 witness: a call with only the language half is the same as
a call with no translation filter. -/
theorem translation_filter_requires_both_witness :
    get_nouns [⟨"dom", "masculine", .list []⟩] 1 20 Option.none Option.none
        (some "es") Option.none
      = get_nouns [⟨"dom", "masculine", .list []⟩] 1 20 Option.none Option.none
        Option.none Option.none :=
  translation_filter_requires_both.1 [⟨"dom", "masculine", .list []⟩] 1 20
    Option.none Option.none (some "es") Option.none (by simp)

/-- Claim C2: with an active translation filter, when no record of the
fetched page satisfies the translation predicate, the functions return
total zero and an empty page — regardless of what later pages hold. -/
theorem empty_filtered_page_returns_zero :
    (∀ (db : List Noun) (page per_page : Nat) (nounF genderF : Option String)
        (lang text : String),
      lang ≠ "" → text ≠ "" →
      (∀ r ∈ ((applyNounFilters nounF genderF db).drop ((page - 1) * per_page)).take per_page,
        matchesTranslationFilter r.translations lang text = false) →
      get_nouns db page per_page nounF genderF (some lang) (some text) = ([], 0))
    ∧ (∀ (db : List Verb) (page per_page : Nat) (pairF : Option String)
        (ctF : Option Int) (lang text : String),
      lang ≠ "" → text ≠ "" →
      (∀ r ∈ ((applyVerbFilters pairF ctF db).drop ((page - 1) * per_page)).take per_page,
        matchesTranslationFilter r.translations lang text = false) →
      get_verbs db page per_page pairF ctF (some lang) (some text) = ([], 0)) := by
  constructor
  · intro db page pp nf gf lang text hl ht hall
    simp only [get_nouns]
    rw [if_pos (truthy_pair_of_ne hl ht)]
    have hfil : (((applyNounFilters nf gf db).drop ((page - 1) * pp)).take pp).filter
        (fun r => matchesTranslationFilter r.translations lang text) = [] := by
      rw [List.filter_eq_nil_iff]
      intro r hr
      simp [hall r hr]
    rw [hfil]
    rfl
  · intro db page pp pf cf lang text hl ht hall
    simp only [get_verbs]
    rw [if_pos (truthy_pair_of_ne hl ht)]
    have hfil : (((applyVerbFilters pf cf db).drop ((page - 1) * pp)).take pp).filter
        (fun r => matchesTranslationFilter r.translations lang text) = [] := by
      rw [List.filter_eq_nil_iff]
      intro r hr
      simp [hall r hr]
    rw [hfil]
    rfl

/-- Claim C2 witness: a two-record store where page 1 (of size 1) has no
match but page 2 would — the engine still answers an empty page with
total zero. -/
theorem empty_filtered_page_returns_zero_witness :
    get_nouns
      [⟨"dom", "masculine", .list []⟩,
       ⟨"kot", "masculine", .list [.dict [("es", .list [.str "amar"])]]⟩]
      1 1 Option.none Option.none (some "es") (some "am") = ([], 0) :=
  empty_filtered_page_returns_zero.1
    [⟨"dom", "masculine", .list []⟩,
     ⟨"kot", "masculine", .list [.dict [("es", .list [.str "amar"])]]⟩]
    1 1 Option.none Option.none "es" "am" (by decide) (by decide) (by decide)

/-- Claim C1: with an active translation filter, when at least one record
of the fetched page matches, the functions re-fetch the full
pushable-predicate result set, take the length of its translation-filtered
version as the total, and slice that filtered full set by the original
page window to produce the page. -/
theorem nonempty_filtered_page_refetches :
    (∀ (db : List Noun) (page per_page : Nat) (nounF genderF : Option String)
        (lang text : String),
      lang ≠ "" → text ≠ "" →
      (∃ r ∈ ((applyNounFilters nounF genderF db).drop ((page - 1) * per_page)).take per_page,
        matchesTranslationFilter r.translations lang text = true) →
      get_nouns db page per_page nounF genderF (some lang) (some text)
        = ((((applyNounFilters nounF genderF db).filter
              (fun r => matchesTranslationFilter r.translations lang text)).drop
                ((page - 1) * per_page)).take per_page,
           ((applyNounFilters nounF genderF db).filter
              (fun r => matchesTranslationFilter r.translations lang text)).length))
    ∧ (∀ (db : List Verb) (page per_page : Nat) (pairF : Option String)
        (ctF : Option Int) (lang text : String),
      lang ≠ "" → text ≠ "" →
      (∃ r ∈ ((applyVerbFilters pairF ctF db).drop ((page - 1) * per_page)).take per_page,
        matchesTranslationFilter r.translations lang text = true) →
      get_verbs db page per_page pairF ctF (some lang) (some text)
        = ((((applyVerbFilters pairF ctF db).filter
              (fun r => matchesTranslationFilter r.translations lang text)).drop
                ((page - 1) * per_page)).take per_page,
           ((applyVerbFilters pairF ctF db).filter
              (fun r => matchesTranslationFilter r.translations lang text)).length)) := by
  constructor
  · intro db page pp nf gf lang text hl ht hex
    simp only [get_nouns]
    rw [if_pos (truthy_pair_of_ne hl ht)]
    obtain ⟨r, hr, hm⟩ := hex
    have hne : (((applyNounFilters nf gf db).drop ((page - 1) * pp)).take pp).filter
        (fun r => matchesTranslationFilter r.translations lang text) ≠ [] := by
      intro hnil
      rw [List.filter_eq_nil_iff] at hnil
      exact absurd hm (by simpa using hnil r hr)
    have hie : ((((applyNounFilters nf gf db).drop ((page - 1) * pp)).take pp).filter
        (fun r => matchesTranslationFilter r.translations lang text)).isEmpty = false := by
      rw [Bool.eq_false_iff, ne_eq, List.isEmpty_iff]
      exact hne
    simp only [hie]
    rfl
  · intro db page pp pf cf lang text hl ht hex
    simp only [get_verbs]
    rw [if_pos (truthy_pair_of_ne hl ht)]
    obtain ⟨r, hr, hm⟩ := hex
    have hne : (((applyVerbFilters pf cf db).drop ((page - 1) * pp)).take pp).filter
        (fun r => matchesTranslationFilter r.translations lang text) ≠ [] := by
      intro hnil
      rw [List.filter_eq_nil_iff] at hnil
      exact absurd hm (by simpa using hnil r hr)
    have hie : ((((applyVerbFilters pf cf db).drop ((page - 1) * pp)).take pp).filter
        (fun r => matchesTranslationFilter r.translations lang text)).isEmpty = false := by
      rw [Bool.eq_false_iff, ne_eq, List.isEmpty_iff]
      exact hne
    simp only [hie]
    rfl

/-- Claim C1 witness: a store whose first page contains a match; the
result is the slice of the translation-filtered full set and its length. -/
theorem nonempty_filtered_page_refetches_witness :
    get_nouns
      [⟨"dom", "masculine", .list [.dict [("es", .list [.str "amar"])]]⟩,
       ⟨"kot", "masculine", .list []⟩]
      1 1 Option.none Option.none (some "es") (some "am")
      = ((((applyNounFilters Option.none Option.none
            [⟨"dom", "masculine", .list [.dict [("es", .list [.str "amar"])]]⟩,
             ⟨"kot", "masculine", .list []⟩]).filter
              (fun r => matchesTranslationFilter r.translations "es" "am")).drop 0).take 1,
         ((applyNounFilters Option.none Option.none
            [⟨"dom", "masculine", .list [.dict [("es", .list [.str "amar"])]]⟩,
             ⟨"kot", "masculine", .list []⟩]).filter
              (fun r => matchesTranslationFilter r.translations "es" "am")).length) :=
  nonempty_filtered_page_refetches.1
    [⟨"dom", "masculine", .list [.dict [("es", .list [.str "amar"])]]⟩,
     ⟨"kot", "masculine", .list []⟩]
    1 1 Option.none Option.none "es" "am" (by decide) (by decide) (by decide)

/-- Claim C8 counterexample: with an active translation filter, a page
beyond the filtered total does not keep the correct total — a two-record
store whose single match sits on page 1 answers page 2 with total 0,
although the full filtered count is 1 (so `total_pages` drops from 1
to 0 as well). -/
theorem page_beyond_range_with_filter_loses_total :
    (get_nouns
      [⟨"dom", "masculine", .list [.dict [("es", .list [.str "amar"])]]⟩,
       ⟨"kot", "masculine", .list []⟩]
      2 1 Option.none Option.none (some "es") (some "am")).2 = 0
    ∧ ((applyNounFilters Option.none Option.none
        [⟨"dom", "masculine", .list [.dict [("es", .list [.str "amar"])]]⟩,
         ⟨"kot", "masculine", .list []⟩]).filter
          (fun r => matchesTranslationFilter r.translations "es" "am")).length = 1
    ∧ total_pages 0 1 = 0 ∧ total_pages 1 1 = 1 := by
  refine ⟨by decide, by decide, by decide, by decide⟩

theorem le_window_of_total_pages_lt {T pp page : Nat} (hpp : 1 ≤ pp)
    (h : total_pages T pp < page) : T ≤ (page - 1) * pp := by
  unfold total_pages at h
  by_cases hT : 0 < T
  · rw [if_pos hT] at h
    have h1 : (T + pp - 1) / pp ≤ page - 1 := by
      generalize (T + pp - 1) / pp = q at h
      omega
    have h2 : T + pp - 1 ≤ pp * (page - 1) + (pp - 1) :=
      (Nat.div_le_iff_le_mul_add_pred (by omega)).mp h1
    have e : T + pp - 1 = T + (pp - 1) := by omega
    rw [e] at h2
    have h3 : T ≤ pp * (page - 1) := Nat.le_of_add_le_add_right h2
    rw [Nat.mul_comm] at h3
    exact h3
  · omega

/-- Claim C8 (amended): without a translation filter, a page beyond
`total_pages` (the ceiling of total over per_page for positive totals,
zero otherwise) yields an empty page while the total still reports the
correct pushable-predicate count.  With an active translation filter the
guarantee fails when the fetched window holds no match (see the
counterexample), so the amended statement covers the filterless case. -/
theorem page_beyond_total_pages_empty :
    (∀ (db : List Noun) (page pp : Nat) (nounF genderF : Option String),
      1 ≤ pp →
      total_pages (applyNounFilters nounF genderF db).length pp < page →
      get_nouns db page pp nounF genderF Option.none Option.none
        = ([], (applyNounFilters nounF genderF db).length))
    ∧ (∀ (db : List Verb) (page pp : Nat) (pairF : Option String) (ctF : Option Int),
      1 ≤ pp →
      total_pages (applyVerbFilters pairF ctF db).length pp < page →
      get_verbs db page pp pairF ctF Option.none Option.none
        = ([], (applyVerbFilters pairF ctF db).length)) := by
  constructor
  · intro db page pp nf gf hpp hpage
    have hT := le_window_of_total_pages_lt hpp hpage
    show (((applyNounFilters nf gf db).drop ((page - 1) * pp)).take pp,
          (applyNounFilters nf gf db).length)
        = ([], (applyNounFilters nf gf db).length)
    rw [List.drop_eq_nil_of_le hT, List.take_nil]
  · intro db page pp pf cf hpp hpage
    have hT := le_window_of_total_pages_lt hpp hpage
    show (((applyVerbFilters pf cf db).drop ((page - 1) * pp)).take pp,
          (applyVerbFilters pf cf db).length)
        = ([], (applyVerbFilters pf cf db).length)
    rw [List.drop_eq_nil_of_le hT, List.take_nil]

/-- Claim C8 amended, witness: a one-record filterless store, page 2 of
size 1 — empty items, total still 1. -/
theorem page_beyond_total_pages_empty_witness :
    get_nouns [⟨"dom", "masculine", .list []⟩] 2 1 Option.none Option.none
        Option.none Option.none
      = ([], (applyNounFilters Option.none Option.none
          [⟨"dom", "masculine", .list []⟩]).length) :=
  page_beyond_total_pages_empty.1 [⟨"dom", "masculine", .list []⟩] 2 1
    Option.none Option.none (by decide) (by decide)

theorem lookup_some_any (d : List (String × PyVal)) (k : String) (v : PyVal)
    (h : List.lookup k d = some v) : d.any (fun p => p.1 == k) = true := by
  induction d with
  | nil => simp [List.lookup] at h
  | cons a tl ih =>
      rw [List.lookup_cons] at h
      by_cases hka : (k == a.1) = true
      · have : (a.1 == k) = true := by
          rw [beq_iff_eq] at hka ⊢
          exact hka.symm
        simp [this]
      · rw [Bool.not_eq_true] at hka
        rw [hka] at h
        simp [ih h]

theorem lookup_mem (d : List (String × PyVal)) (k : String) (v : PyVal)
    (h : List.lookup k d = some v) : (k, v) ∈ d := by
  induction d with
  | nil => simp [List.lookup] at h
  | cons a tl ih =>
      rw [List.lookup_cons] at h
      by_cases hka : (k == a.1) = true
      · rw [hka] at h
        rw [beq_iff_eq] at hka
        have : a = (k, v) := by
          cases a with
          | mk a1 a2 =>
              simp only [Option.some.injEq] at h
              rw [Prod.mk.injEq]
              exact ⟨hka.symm, h⟩
        rw [this]
        exact List.mem_cons_self _ _
      · rw [Bool.not_eq_true] at hka
        rw [hka] at h
        exact List.mem_cons_of_mem _ (ih h)

theorem replace_absent (d : List (String × PyVal)) (k : String) (v : PyVal)
    (h : ∀ p ∈ d, (p.1 == k) = false) :
    (d.map fun p => if p.1 == k then (k, v) else p) = d := by
  induction d with
  | nil => rfl
  | cons a tl ih =>
      rw [List.map_cons, h a (List.mem_cons_self _ _), if_neg (by simp), ih]
      intro p hp
      exact h p (List.mem_cons_of_mem _ hp)

theorem replace_self (d : List (String × PyVal)) (k : String) (v : PyVal)
    (hnd : keysNodup d = true) (hlk : List.lookup k d = some v) :
    (d.map fun p => if p.1 == k then (k, v) else p) = d := by
  induction d with
  | nil => rfl
  | cons a tl ih =>
      simp only [keysNodup, Bool.and_eq_true, Bool.not_eq_true'] at hnd
      obtain ⟨hhead, htl⟩ := hnd
      rw [List.lookup_cons] at hlk
      rw [List.map_cons]
      by_cases hka : (k == a.1) = true
      · rw [hka] at hlk
        rw [beq_iff_eq] at hka
        simp only [Option.some.injEq] at hlk
        have ha : (if a.1 == k then (k, v) else a) = a := by
          cases a with
          | mk a1 a2 =>
              have hc : ((a1, a2).1 == k) = true := by
                rw [beq_iff_eq]
                exact hka.symm
              rw [if_pos hc, Prod.mk.injEq]
              exact ⟨hka, hlk.symm⟩
        rw [ha]
        have habs : ∀ p ∈ tl, (p.1 == k) = false := by
          intro p hp
          rw [List.any_eq_false] at hhead
          have := hhead p hp
          rw [Bool.not_eq_true] at this
          rw [beq_eq_false_iff_ne] at this ⊢
          rw [hka]
          exact this
        rw [replace_absent tl k v habs]
      · rw [Bool.not_eq_true] at hka
        rw [hka] at hlk
        have ha : (if a.1 == k then (k, v) else a) = a := by
          rw [if_neg]
          intro hc
          rw [beq_iff_eq] at hc
          rw [beq_eq_false_iff_ne] at hka
          exact hka hc.symm
        rw [ha, ih htl hlk]

theorem dictSet_self (d : List (String × PyVal)) (k : String) (v : PyVal)
    (hnd : keysNodup d = true) (hlk : List.lookup k d = some v) :
    dictSet d k v = d := by
  unfold dictSet
  rw [if_pos (lookup_some_any d k v hlk)]
  exact replace_self d k v hnd hlk

theorem foldl_fixed {α β : Type} (f : β → α → β) (b : β) (l : List α)
    (h : ∀ a ∈ l, f b a = b) : l.foldl f b = b := by
  induction l with
  | nil => rfl
  | cons a tl ih =>
      rw [List.foldl_cons, h a (List.mem_cons_self _ _)]
      exact ih fun x hx => h x (List.mem_cons_of_mem _ hx)

theorem normalizeCaseForms_canonical (cf : List (String × PyVal))
    (h : canonicalCaseForms cf = true) : normalizeCaseForms cf = cf := by
  unfold canonicalCaseForms at h
  rw [Bool.and_eq_true] at h
  obtain ⟨hnd, hall⟩ := h
  unfold normalizeCaseForms
  apply foldl_fixed
  intro c hc
  cases hlk : List.lookup c cf with
  | none => simp [hlk]
  | some v =>
      have hmem := lookup_mem cf c v hlk
      rw [List.all_eq_true] at hall
      have hv := hall (c, v) hmem
      have hcont : cases6.contains c = true := by
        rw [List.contains_iff_exists_mem_beq]
        exact ⟨c, hc, by simp⟩
      rw [hcont] at hv
      simp only [Bool.not_true, Bool.false_or] at hv
      cases v with
      | dict wd =>
          have : normalizeWordForm (.dict wd) = .dict wd := rfl
          simp only [hlk, this]
          exact dictSet_self cf c (.dict wd) hnd hlk
      | str s => simp [isWordFormMapping] at hv
      | int n => simp [isWordFormMapping] at hv
      | list l => simp [isWordFormMapping] at hv
      | none => simp [isWordFormMapping] at hv

theorem normalizeNounStructure_canonical (d : List (String × PyVal))
    (h : canonicalNoun (.dict d) = true) :
    normalizeNounStructure (.dict d) = .dict d := by
  simp only [canonicalNoun] at h
  rw [Bool.and_eq_true, Bool.and_eq_true] at h
  obtain ⟨⟨hnd, _⟩, hdecl⟩ := h
  cases hdec0 : List.lookup "declension" d with
  | none => simp [normalizeNounStructure, hdec0]
  | some v =>
      cases v with
      | dict dec =>
          rw [hdec0] at hdecl
          simp only at hdecl
          rw [Bool.and_eq_true, Bool.and_eq_true] at hdecl
          obtain ⟨⟨hdnd, hs⟩, hp⟩ := hdecl
          simp only [normalizeNounStructure, hdec0]
          cases hs0 : List.lookup "singular" dec with
          | none =>
              simp only [hs0]
              cases hp0 : List.lookup "plural" dec with
              | none =>
                  simp only [hp0]
                  rw [dictSet_self d "declension" (.dict dec) hnd hdec0]
              | some w =>
                  cases w with
                  | dict p =>
                      rw [hp0] at hp
                      simp only at hp
                      simp only [hp0, normalizeCaseForms_canonical p hp,
                        dictSet_self dec "plural" (.dict p) hdnd hp0]
                      rw [dictSet_self d "declension" (.dict dec) hnd hdec0]
                  | str s2 =>
                      simp only [hp0]
                      rw [dictSet_self d "declension" (.dict dec) hnd hdec0]
                  | int n2 =>
                      simp only [hp0]
                      rw [dictSet_self d "declension" (.dict dec) hnd hdec0]
                  | list l2 =>
                      simp only [hp0]
                      rw [dictSet_self d "declension" (.dict dec) hnd hdec0]
                  | none =>
                      simp only [hp0]
                      rw [dictSet_self d "declension" (.dict dec) hnd hdec0]
          | some w =>
              cases w with
              | dict s =>
                  rw [hs0] at hs
                  simp only at hs
                  simp only [hs0, normalizeCaseForms_canonical s hs,
                    dictSet_self dec "singular" (.dict s) hdnd hs0]
                  cases hp0 : List.lookup "plural" dec with
                  | none =>
                      simp only [hp0]
                      rw [dictSet_self d "declension" (.dict dec) hnd hdec0]
                  | some w2 =>
                      cases w2 with
                      | dict p =>
                          rw [hp0] at hp
                          simp only at hp
                          simp only [hp0, normalizeCaseForms_canonical p hp,
                            dictSet_self dec "plural" (.dict p) hdnd hp0]
                          rw [dictSet_self d "declension" (.dict dec) hnd hdec0]
                      | str s2 =>
                          simp only [hp0]
                          rw [dictSet_self d "declension" (.dict dec) hnd hdec0]
                      | int n2 =>
                          simp only [hp0]
                          rw [dictSet_self d "declension" (.dict dec) hnd hdec0]
                      | list l2 =>
                          simp only [hp0]
                          rw [dictSet_self d "declension" (.dict dec) hnd hdec0]
                      | none =>
                          simp only [hp0]
                          rw [dictSet_self d "declension" (.dict dec) hnd hdec0]
              | str s2 =>
                  simp only [normalizeNounStructure, hdec0]
                  cases hp0 : List.lookup "plural" dec with
                  | none =>
                      simp only [hp0]
                      rw [dictSet_self d "declension" (.dict dec) hnd hdec0]
                  | some w2 =>
                      cases w2 with
                      | dict p =>
                          rw [hp0] at hp
                          simp only at hp
                          simp only [hp0]
                          rw [normalizeCaseForms_canonical p hp,
                            dictSet_self dec "plural" (.dict p) hdnd hp0]
                          rw [dictSet_self d "declension" (.dict dec) hnd hdec0]
                      | str u =>
                          simp only [hp0]
                          rw [dictSet_self d "declension" (.dict dec) hnd hdec0]
                      | int u =>
                          simp only [hp0]
                          rw [dictSet_self d "declension" (.dict dec) hnd hdec0]
                      | list u =>
                          simp only [hp0]
                          rw [dictSet_self d "declension" (.dict dec) hnd hdec0]
                      | none =>
                          simp only [hp0]
                          rw [dictSet_self d "declension" (.dict dec) hnd hdec0]
              | int n2 =>
                  simp only [normalizeNounStructure, hdec0]
                  cases hp0 : List.lookup "plural" dec with
                  | none =>
                      simp only [hp0]
                      rw [dictSet_self d "declension" (.dict dec) hnd hdec0]
                  | some w2 =>
                      cases w2 with
                      | dict p =>
                          rw [hp0] at hp
                          simp only at hp
                          simp only [hp0]
                          rw [normalizeCaseForms_canonical p hp,
                            dictSet_self dec "plural" (.dict p) hdnd hp0]
                          rw [dictSet_self d "declension" (.dict dec) hnd hdec0]
                      | str u =>
                          simp only [hp0]
                          rw [dictSet_self d "declension" (.dict dec) hnd hdec0]
                      | int u =>
                          simp only [hp0]
                          rw [dictSet_self d "declension" (.dict dec) hnd hdec0]
                      | list u =>
                          simp only [hp0]
                          rw [dictSet_self d "declension" (.dict dec) hnd hdec0]
                      | none =>
                          simp only [hp0]
                          rw [dictSet_self d "declension" (.dict dec) hnd hdec0]
              | list l2 =>
                  simp only [normalizeNounStructure, hdec0]
                  cases hp0 : List.lookup "plural" dec with
                  | none =>
                      simp only [hp0]
                      rw [dictSet_self d "declension" (.dict dec) hnd hdec0]
                  | some w2 =>
                      cases w2 with
                      | dict p =>
                          rw [hp0] at hp
                          simp only at hp
                          simp only [hp0]
                          rw [normalizeCaseForms_canonical p hp,
                            dictSet_self dec "plural" (.dict p) hdnd hp0]
                          rw [dictSet_self d "declension" (.dict dec) hnd hdec0]
                      | str u =>
                          simp only [hp0]
                          rw [dictSet_self d "declension" (.dict dec) hnd hdec0]
                      | int u =>
                          simp only [hp0]
                          rw [dictSet_self d "declension" (.dict dec) hnd hdec0]
                      | list u =>
                          simp only [hp0]
                          rw [dictSet_self d "declension" (.dict dec) hnd hdec0]
                      | none =>
                          simp only [hp0]
                          rw [dictSet_self d "declension" (.dict dec) hnd hdec0]
              | none =>
                  simp only [normalizeNounStructure, hdec0]
                  cases hp0 : List.lookup "plural" dec with
                  | none =>
                      simp only [hp0]
                      rw [dictSet_self d "declension" (.dict dec) hnd hdec0]
                  | some w2 =>
                      cases w2 with
                      | dict p =>
                          rw [hp0] at hp
                          simp only at hp
                          simp only [hp0]
                          rw [normalizeCaseForms_canonical p hp,
                            dictSet_self dec "plural" (.dict p) hdnd hp0]
                          rw [dictSet_self d "declension" (.dict dec) hnd hdec0]
                      | str u =>
                          simp only [hp0]
                          rw [dictSet_self d "declension" (.dict dec) hnd hdec0]
                      | int u =>
                          simp only [hp0]
                          rw [dictSet_self d "declension" (.dict dec) hnd hdec0]
                      | list u =>
                          simp only [hp0]
                          rw [dictSet_self d "declension" (.dict dec) hnd hdec0]
                      | none =>
                          simp only [hp0]
                          rw [dictSet_self d "declension" (.dict dec) hnd hdec0]
      | str s => simp [normalizeNounStructure, hdec0]
      | int n => simp [normalizeNounStructure, hdec0]
      | list l => simp [normalizeNounStructure, hdec0]
      | none => simp [normalizeNounStructure, hdec0]

/-- Claim C7: normalization is idempotent — on a record already in
canonical form (list-valued translations, every declension case leaf a
full word-form mapping, dict keys unique as in every Python dict),
`normalize_noun_for_response` is the identity. -/
theorem normalize_noun_for_response_idempotent (data : PyVal)
    (h : canonicalNoun data = true) :
    normalize_noun_for_response data = data := by
  cases data with
  | dict d =>
      have h' := h
      simp only [canonicalNoun] at h'
      rw [Bool.and_eq_true, Bool.and_eq_true] at h'
      obtain ⟨⟨hnd, htr⟩, hdecl⟩ := h'
      simp only [normalize_noun_for_response]
      cases htr0 : List.lookup "translations" d with
      | none =>
          simp only [htr0]
          exact normalizeNounStructure_canonical d h
      | some v =>
          cases v with
          | list l =>
              simp only [htr0]
              exact normalizeNounStructure_canonical d h
          | dict t =>
              rw [htr0] at htr
              simp at htr
          | str s =>
              rw [htr0] at htr
              simp at htr
          | int n =>
              rw [htr0] at htr
              simp at htr
          | none =>
              rw [htr0] at htr
              simp at htr
  | str s => simp [canonicalNoun] at h
  | int n => simp [canonicalNoun] at h
  | list l => simp [canonicalNoun] at h
  | none => simp [canonicalNoun] at h

/-- A concrete canonical record used to witness idempotence. -/
def exampleCanonicalNoun : PyVal :=
  .dict [("id", .int 1), ("noun", .str "dom"), ("gender", .str "masculine"),
         ("translations", .list [.dict [("es", .list [.str "casa"])]]),
         ("declension", .dict
           [("singular", .dict
              [("nominative", .dict [("word", .str "dom"), ("accent", .str "dom"),
                                     ("phonetics", .str "")]),
               ("genitive", .dict [("word", .str "doma"), ("accent", .str "doma"),
                                   ("phonetics", .str "")])]),
            ("plural", .dict
              [("nominative", .dict [("word", .str "doma"), ("accent", .str "doma"),
                                     ("phonetics", .str "")])])])]

/-- Claim C7 witness: the concrete canonical record is a fixed point of
the normalization. -/
theorem normalize_noun_for_response_idempotent_witness :
    canonicalNoun exampleCanonicalNoun = true
    ∧ normalize_noun_for_response exampleCanonicalNoun = exampleCanonicalNoun :=
  ⟨by decide, normalize_noun_for_response_idempotent exampleCanonicalNoun (by decide)⟩

/-- Claim C9 counterexample: removing a link names a noun id with no
record (99), yet the endpoint succeeds with the link set unchanged
instead of failing with NotFound — the removal path never looks the noun
up. -/
theorem remove_link_missing_noun_succeeds :
    remove_noun_from_group_endpoint ⟨[(1, 7)], [], []⟩ 7 1 99
        = .ok ⟨[(1, 7)], [], []⟩
    ∧ remove_noun_from_group_endpoint ⟨[(1, 7)], [], []⟩ 7 1 99
        ≠ .error ApiError.notFound := by
  refine ⟨rfl, ?_⟩
  intro h
  simp [remove_noun_from_group_endpoint, removeFirstLink, List.lookup] at h

/-- Claim C9 (amended): adding a link requires both the group and the
noun to exist — a missing group, or a missing noun under an owned group,
fails with NotFound and adds nothing.  Removing a link checks only the
group: a missing group fails with NotFound, but under an owned group the
removal succeeds whether or not the noun exists, deleting the first
matching link row; when no matching row exists (as for a noun with no
record) the link set is returned unchanged. -/
theorem group_link_existence_checks :
    (∀ (st : LinkState) (u g n : Nat),
      List.lookup g st.groups = Option.none →
      add_noun_to_group_endpoint st u g n = .error ApiError.notFound)
    ∧ (∀ (st : LinkState) (u g n : Nat),
      List.lookup g st.groups = some u →
      n ∉ st.nouns →
      add_noun_to_group_endpoint st u g n = .error ApiError.notFound)
    ∧ (∀ (st : LinkState) (u g n : Nat),
      List.lookup g st.groups = Option.none →
      remove_noun_from_group_endpoint st u g n = .error ApiError.notFound)
    ∧ (∀ (st : LinkState) (u g n : Nat),
      List.lookup g st.groups = some u →
      remove_noun_from_group_endpoint st u g n
        = .ok { st with links := removeFirstLink st.links (g, n) })
    ∧ (∀ (links : List (Nat × Nat)) (g n : Nat),
      (g, n) ∉ links → removeFirstLink links (g, n) = links) := by
  refine ⟨?_, ?_, ?_, ?_, ?_⟩
  · intro st u g n h
    simp [add_noun_to_group_endpoint, h]
  · intro st u g n h hn
    simp [add_noun_to_group_endpoint, h, hn]
  · intro st u g n h
    simp [remove_noun_from_group_endpoint, h]
  · intro st u g n h
    simp [remove_noun_from_group_endpoint, h]
  · intro links g n h
    induction links with
    | nil => rfl
    | cons l ls ih =>
        rw [removeFirstLink]
        rw [if_neg]
        · rw [ih fun hm => h (List.mem_cons_of_mem _ hm)]
        · intro he
          exact h (he ▸ List.mem_cons_self _ _)

/-- Claim C9 amended, witness: the add endpoint applied where the group
exists and is owned but the noun id has no record fails with NotFound. -/
theorem group_link_existence_checks_witness :
    add_noun_to_group_endpoint ⟨[(1, 7)], [], []⟩ 7 1 5 = .error ApiError.notFound :=
  group_link_existence_checks.2.1 ⟨[(1, 7)], [], []⟩ 7 1 5 (by decide) (by decide)
